import Mathlib

/-!
The `reposcaffolding/github/golang` plugin of devstream.

A shallow embedding of
`internal/pkg/plugin/reposcaffolding/github/golang/golang.go`.

Modelling conventions

* A Go `string` and a Go `[]byte` are modelled by a Lean `String`, that is a
  sequence of Unicode scalar values (well-formed UTF-8 text).  All separators
  and tokens the plugin looks for are ASCII, so splitting and searching by
  character coincides with Go's splitting and searching by byte on such text.
* A Go `error` is modelled by its message (`String`); `nil` is `none`.
* The GitHub client is an oracle: the error it answers to a call may depend on
  every call made before.  The run is an explicit state passing computation
  over the trace (list) of client calls made so far.
* `filepath.Walk` hands the entries of the tree to the callback in its visit
  order and stops at the first error the callback returns; the visit order of
  a root is part of the file system parameter.  Errors are assumed never to be
  the `filepath.SkipDir` sentinel (the callback never creates it).
* Logging calls have no effect on control flow and are omitted.
-/

namespace Devstream

deriving instance DecidableEq for Except

/-! ## Go library functions used by the plugin -/

namespace strings

/-- Go `strings.Index` on character lists: position of the first occurrence of
`substr` in `s`, `none` when Go returns `-1`. -/
def indexChars (substr : List Char) : List Char → Option Nat
  | [] => if substr.isEmpty then some 0 else none
  | c :: cs =>
    if substr.isPrefixOf (c :: cs) then some 0
    else (indexChars substr cs).map (· + 1)

/-- Go `strings.Index`. -/
def Index (s substr : String) : Option Nat := indexChars substr.data s.data

/-- Go `strings.Contains(s, substr)`, defined there as `Index(s, substr) >= 0`. -/
def Contains (s substr : String) : Bool := (Index s substr).isSome

/-- Go `strings.HasSuffix`. -/
def HasSuffix (s suffix : String) : Bool := suffix.data.isSuffixOf s.data

/-- Go `strings.TrimSuffix`: `s` without the trailing `suffix` when it has it,
`s` itself otherwise. -/
def TrimSuffix (s suffix : String) : String :=
  if HasSuffix s suffix then ⟨s.data.take (s.data.length - suffix.data.length)⟩ else s

/-- The loop of Go `strings.genSplit` for a non-empty separator: `cuts` is the
number of separators that may still be consumed (`n - 1 - i` in the Go loop);
the last piece is the unsplit remainder. -/
def genSplit (sep : List Char) : Nat → List Char → List (List Char)
  | 0, s => [s]
  | cuts + 1, s =>
    match indexChars sep s with
    | none => [s]
    | some m => s.take m :: genSplit sep cuts (s.drop (m + sep.length))

/-- Go `strings.SplitN(s, sep, n)` for `n ≥ 0` and a non-empty separator (the
plugin calls it with `"/"` and `3`): at most `n` pieces, the last one being the
unsplit remainder; `n = 0` gives no piece at all. -/
def SplitN (s sep : String) (n : Nat) : List String :=
  match n with
  | 0 => []
  | k + 1 => (genSplit sep.data k s.data).map String.mk

end strings

/-! ## Path translation -/

/-- `genPathForGithub` of golang.go: the part of a local path after its first
two segments, an error when the path has fewer than three segments. -/
def genPathForGithub (filePath : String) : Except String String :=
  let splitStrs := strings.SplitN filePath "/" 3
  if h : splitStrs.length ≠ 3 then
    .error ("unknown format: " ++ filePath)
  else
    .ok (splitStrs.get ⟨2, by omega⟩)

namespace regexp

/-- A compiled regular expression.  The model covers the expressions that are
a plain word (letters, digits and `_`): such an expression matches exactly its
own text and has no capture group. -/
structure Regexp where
  literal : List Char
deriving DecidableEq

/-- Characters that stand for themselves in a regular expression and that the
model accepts in a pattern. -/
def isPlainChar (c : Char) : Bool := c.isAlphanum || c == '_'

/-- Go `regexp.Compile` on plain-word expressions (the plugin compiles the
constant `"_app_name_"` only).  Other expressions are outside the model and
are answered by an error. -/
def Compile (expr : String) : Except String Regexp :=
  if expr.data.all isPlainChar then .ok ⟨expr.data⟩
  else .error ("error parsing regexp: " ++ expr)

/-- The number parsed by Go `regexp.extract` from a group name: `none` stands
for `-1` (not a number, too long, or with a leading zero). -/
def parseNum (name : List Char) : Option Nat :=
  let num := name.foldl (fun (acc : Option Nat) c =>
    match acc with
    | none => none
    | some n =>
      if c < '0' ∨ '9' < c ∨ 100000000 ≤ n then none
      else some (n * 10 + (c.toNat - '0'.toNat))) (some 0)
  if name.head? = some '0' ∧ 1 < name.length then none else num

/-- Go `regexp.extract`: the name at the head of `str` (the text after a `$`),
as `name` or `{name}`, its number and the rest of the text; `none` when Go
returns `ok = false`.  `isLetterOrDigit r` stands for
`unicode.IsLetter(r) || unicode.IsDigit(r)`. -/
def extract (isLetterOrDigit : Char → Bool) (str : List Char) :
    Option (List Char × Option Nat × List Char) :=
  if str = [] then none
  else
    let brace : Bool := str.head? = some '{'
    let str := if brace then str.tail else str
    let name := str.takeWhile (fun r => isLetterOrDigit r || r == '_')
    let i := name.length
    if i = 0 then none
    else if brace ∧ (str.drop i).head? ≠ some '}' then none
    else
      let i := if brace then i + 1 else i
      some (name, parseNum name, str.drop i)

/-- Go `strings.Cut(template, "$")` on character lists. -/
def cutDollar : List Char → Option (List Char × List Char)
  | [] => none
  | c :: cs =>
    if c = '$' then some ([], cs)
    else (cutDollar cs).map (fun p => (c :: p.1, p.2))

/-- The loop of Go `(*Regexp).expand` for a regular expression without capture
group, where `matched` is the text of the whole match (group 0, the only group
there is, and without a name): `$$` is a dollar sign, `$0` and `${0}` are the
match, any other `$name` is empty, and a `$` that starts no name is itself.
Every round consumes the `$` it found, so `fuel` larger than the length of the
template is never used up. -/
def expandLoop (isLetterOrDigit : Char → Bool) (matched : List Char) :
    Nat → List Char → List Char
  | 0, template => template
  | fuel + 1, template =>
    match cutDollar template with
    | none => template
    | some (before, after) =>
      match after with
      | '$' :: rest => before ++ '$' :: expandLoop isLetterOrDigit matched fuel rest
      | _ =>
        match extract isLetterOrDigit after with
        | none => before ++ '$' :: expandLoop isLetterOrDigit matched fuel after
        | some (_, num, rest) =>
          before ++ (if num = some 0 then matched else [])
            ++ expandLoop isLetterOrDigit matched fuel rest

/-- Go `(*Regexp).expand`. -/
def expand (isLetterOrDigit : Char → Bool) (template matched : List Char) : List Char :=
  expandLoop isLetterOrDigit matched (template.length + 1) template

/-- Go `(*Regexp).replaceAll` for a literal pattern: the leftmost matches, not
overlapping, are replaced from left to right.  `skip` counts the characters of
the current match that are still to be passed over. -/
def replaceAllChars (pat repl : List Char) : Nat → List Char → List Char
  | _, [] => []
  | skip + 1, _ :: cs => replaceAllChars pat repl skip cs
  | 0, c :: cs =>
    if pat.isPrefixOf (c :: cs) then repl ++ replaceAllChars pat repl (pat.length - 1) cs
    else c :: replaceAllChars pat repl 0 cs

/-- Go `(*Regexp).ReplaceAllString(src, repl)`: every match is replaced by the
expansion of `repl`, in which `$` signs are interpreted as in `Expand`.  (An
empty pattern is not covered by the model, it matches at every position.) -/
def Regexp.ReplaceAllString (re : Regexp) (isLetterOrDigit : Char → Bool)
    (src repl : String) : String :=
  ⟨replaceAllChars re.literal (expand isLetterOrDigit repl.data re.literal) 0 src.data⟩

end regexp

/-- `replaceAppNameInPathStr` of golang.go. -/
def replaceAppNameInPathStr (isLetterOrDigit : Char → Bool) (filePath appName : String) :
    Except String String :=
  let pet := "_app_name_"
  match regexp.Compile pet with
  | .error err => .error err
  | .ok reg =>
    let newFilePath := reg.ReplaceAllString isLetterOrDigit filePath appName
    .ok newFilePath


/-! ## Options, render context and state -/

/-- Modelled from the spec: the `Options` record of the plugin, whose declaration
is not in golang.go (spec 3, ProvisioningOptions: repoName, ownerLogin,
orgLogin, imageRepo, targetBranch), under the field names golang.go reads. -/
structure Options where
  Owner : String
  Org : String
  Repo : String
  Branch : String
  ImageRepo : String
deriving DecidableEq, Repr

/-- `Repo` of golang.go. -/
structure Repo where
  Name : String
  Owner : String
deriving DecidableEq, Repr

/-- `Config` of golang.go, the value the templates are executed against. -/
structure Config where
  AppName : String
  ImageRepo : String
  Repo : Repo
deriving DecidableEq, Repr

def DefaultWorkPath : String := ".github-repo-scaffolding-golang"
def DefaultTemplateRepo : String := "dtm-scaffolding-golang"
def DefaultTemplateOwner : String := "devstream-io"
def TransitBranch : String := "init-with-devstream"
def DefaultMainBranch : String := "main"

/-- `getMainBranchName` of golang.go. -/
def getMainBranchName (opts : Options) : String :=
  if opts.Branch = "" then DefaultMainBranch else opts.Branch

/-- The `outputs` map built by `buildState`, one field per key. -/
structure Outputs where
  owner : String
  org : String
  repo : String
  repoURL : String
deriving DecidableEq, Repr

/-- The map returned by `buildState`, one field per key. -/
structure State where
  owner : String
  org : String
  repoName : String
  outputs : Outputs
deriving DecidableEq, Repr

/-- `buildState` of golang.go (`fmt.Sprintf` with `%s` verbs on strings is
concatenation). -/
def buildState (opts : Options) : State :=
  { owner := opts.Owner
    org := opts.Org
    repoName := opts.Repo
    outputs :=
      { owner := opts.Owner
        org := opts.Org
        repo := opts.Repo
        repoURL :=
          if opts.Owner ≠ "" then
            "https://github.com/" ++ opts.Owner ++ "/" ++ opts.Repo ++ ".git"
          else
            "https://github.com/" ++ opts.Org ++ "/" ++ opts.Repo ++ ".git" } }

/-! ## The world outside the plugin -/

/-- One call of the `filepath.Walk` callback: the path, whether the entry is a
directory, and the error `Walk` met on the entry (from `Lstat` or from reading
the directory), if any. -/
structure WalkEntry where
  path : String
  isDir : Bool
  err : Option String
deriving DecidableEq, Repr

/-- What a run takes from the file system and from the Go libraries. -/
structure World where
  /-- the entries `filepath.Walk` visits from a root, in its (lexical) visit
  order, as long as the callback returns `nil` -/
  walk : String → List WalkEntry
  /-- `ioutil.ReadFile` -/
  readFile : String → Except String String
  /-- the error of `Parse` on a template text, with delimiters `[[` and `]]` -/
  templateParse : String → Option String
  /-- the output of `Execute` of the parsed template text on a `Config` -/
  templateExecute : String → Config → Except String String
  /-- `unicode.IsLetter(r) || unicode.IsDigit(r)` -/
  isLetterOrDigit : Char → Bool

/-- Modelled from the spec: the merge method handed to `MergePullRequest`, the
constant `github.MergeMethodSquash` of the client package (spec 4.4: the merge
uses squash semantics). -/
inductive MergeMethod where
  | MergeMethodSquash
deriving DecidableEq, Repr

/-- A call on the GitHub client (`github.Client`, the capability of spec 6),
with its arguments as golang.go passes them. -/
inductive Call where
  | CreateRepo (org : String)
  | DeleteRepo
  | CreateFile (content : String) (filePath : String) (targetBranch : String)
  | NewBranch (baseBranch : String) (newBranch : String)
  | NewPullRequest (fromBranch : String) (toBranch : String)
  | MergePullRequest (number : Int) (mergeMethod : MergeMethod)
deriving DecidableEq, Repr

/-- The GitHub client as an oracle: what a call answers after the calls made
before it in the run. -/
structure Client where
  /-- the error a call returns (`none` for `nil`) -/
  respond : List Call → Call → Option String
  /-- the number `NewPullRequest` returns together with its error -/
  prNumber : List Call → Int

/-- Make a call: its error, and the trace extended by the call. -/
def Client.call (ghClient : Client) (trace : List Call) (c : Call) :
    Option String × List Call :=
  (ghClient.respond trace c, trace ++ [c])

/-! ## The plugin -/

/-- The `Config` that `Render` builds from the options. -/
def renderConfig (opts : Options) : Config :=
  let owner := opts.Owner
  let owner := if opts.Org ≠ "" then opts.Org else owner
  { AppName := opts.Repo
    ImageRepo := opts.ImageRepo
    Repo := { Name := opts.Repo, Owner := owner } }

/-- `Render` of golang.go. -/
def Render (w : World) (filePath : String) (opts : Options) : Except String String :=
  let config := renderConfig opts
  match w.readFile filePath with
  | .error err => .error err
  | .ok textBytes =>
    let textStr := textBytes
    match w.templateParse textStr with
    | some err => .error err
    | none =>
      match w.templateExecute textStr config with
      | .error err => .error err
      | .ok buf => .ok buf

/-- The callback that `WalkLocalRepoPath` hands to `filepath.Walk`. -/
def walkFn (w : World) (opts : Options) (ghClient : Client) (appName mainBranch : String)
    (entry : WalkEntry) (trace : List Call) : Option String × List Call :=
  match entry.err with
  | some err => (some err, trace)
  | none =>
    if entry.isDir then (none, trace)
    else if strings.Contains entry.path ".git/" then (none, trace)
    else if strings.HasSuffix entry.path "README.md" then (none, trace)
    else
      match genPathForGithub entry.path with
      | .error err => (some err, trace)
      | .ok pathForGithub =>
        match (if strings.Contains entry.path "tpl" then Render w entry.path opts
               else w.readFile entry.path) with
        | .error err => (some err, trace)
        | .ok content =>
          match replaceAppNameInPathStr w.isLetterOrDigit pathForGithub appName with
          | .error err => (some err, trace)
          | .ok newPathForGithub =>
            if strings.Contains newPathForGithub "gitignore" then
              match ghClient.call trace
                  (.CreateFile content (strings.TrimSuffix newPathForGithub ".tpl") mainBranch) with
              | (some err, trace1) => (some err, trace1)
              | (none, trace1) => ghClient.call trace1 (.NewBranch mainBranch TransitBranch)
            else
              ghClient.call trace
                (.CreateFile content (strings.TrimSuffix newPathForGithub ".tpl") TransitBranch)

/-- The loop of `filepath.Walk` over the entries it visits: the callback runs
on each entry in turn, the first error it returns ends the walk and is the
result. -/
def walkEntries (fn : WalkEntry → List Call → Option String × List Call) :
    List WalkEntry → List Call → Option String × List Call
  | [], trace => (none, trace)
  | entry :: rest, trace =>
    match fn entry trace with
    | (some err, trace1) => (some err, trace1)
    | (none, trace1) => walkEntries fn rest trace1

/-- `WalkLocalRepoPath` of golang.go. -/
def WalkLocalRepoPath (w : World) (repoPath : String) (opts : Options) (ghClient : Client)
    (trace : List Call) : Option String × List Call :=
  let appName := opts.Repo
  let mainBranch := getMainBranchName opts
  walkEntries (walkFn w opts ghClient appName mainBranch) (w.walk repoPath) trace

/-- `MergeCommits` of golang.go. -/
def MergeCommits (ghClient : Client) (mainBranch : String) (trace : List Call) :
    Option String × List Call :=
  let number := ghClient.prNumber trace
  match ghClient.call trace (.NewPullRequest TransitBranch mainBranch) with
  | (some err, trace1) => (some err, trace1)
  | (none, trace1) => ghClient.call trace1 (.MergePullRequest number .MergeMethodSquash)

/-- The body of `InitRepoLocalAndPushToRemote` after the `defer` statement:
the value it returns, which is also the last value assigned to `retErr`. -/
def initBody (w : World) (repoPath : String) (opts : Options) (ghClient : Client)
    (trace : List Call) : Option String × List Call :=
  match WalkLocalRepoPath w repoPath opts ghClient trace with
  | (some retErr, trace1) => (some retErr, trace1)
  | (none, trace1) =>
    let mainBranch := getMainBranchName opts
    match MergeCommits ghClient mainBranch trace1 with
    | (some retErr, trace2) => (some retErr, trace2)
    | (none, trace2) => (none, trace2)

/-- The deferred function of `InitRepoLocalAndPushToRemote`: nothing when
`retErr` is `nil`, otherwise `DeleteRepo`, whose error is logged and dropped. -/
def initDeferred (ghClient : Client) (retErr : Option String) (trace : List Call) :
    List Call :=
  match retErr with
  | none => trace
  | some _ =>
    match ghClient.call trace .DeleteRepo with
    | (some _, trace1) => trace1
    | (none, trace1) => trace1

/-- `InitRepoLocalAndPushToRemote` of golang.go: the error returned to the
caller and the trace of the client calls of the run. -/
def InitRepoLocalAndPushToRemote (w : World) (repoPath : String) (opts : Options)
    (ghClient : Client) : Option String × List Call :=
  match ghClient.call [] (.CreateRepo opts.Org) with
  | (some err, trace0) => (some err, trace0)
  | (none, trace0) =>
    match initBody w repoPath opts ghClient trace0 with
    | (retErr, trace1) => (retErr, initDeferred ghClient retErr trace1)

/-! ## Notions the properties are stated with -/

/-- Path translation as `WalkLocalRepoPath` applies it to a local path:
`genPathForGithub` (line 95) followed by `replaceAppNameInPathStr` (line 114). -/
def translatePath (isLetterOrDigit : Char → Bool) (path appName : String) :
    Except String String :=
  match genPathForGithub path with
  | .error err => .error err
  | .ok pathForGithub => replaceAppNameInPathStr isLetterOrDigit pathForGithub appName

/-- The content `WalkLocalRepoPath` commits for a local file: rendered when
the path contains `tpl`, read as is otherwise. -/
def fileContent (w : World) (opts : Options) (path : String) : Except String String :=
  if strings.Contains path "tpl" then Render w path opts else w.readFile path

/-- An entry the walk neither fails on nor skips: no walk error, not a
directory, not under `.git/`, not a `README.md`. -/
def WalkEntry.isCandidate (entry : WalkEntry) : Bool :=
  entry.err.isNone && !entry.isDir && !strings.Contains entry.path ".git/"
    && !strings.HasSuffix entry.path "README.md"

/-- Whether a translated target path is the one of the bootstrap file. -/
def isBootstrapPath (target : String) : Bool := strings.Contains target "gitignore"

/-- The single commit a published file is to get: its content at its target
path (translated, without the `.tpl` suffix), on the resolved main branch when
the translated path contains `gitignore`, on the transit branch otherwise.
`none` when the content or the target path cannot be computed. -/
def expectedCommit (w : World) (opts : Options) (entry : WalkEntry) : Option Call :=
  match translatePath w.isLetterOrDigit entry.path opts.Repo, fileContent w opts entry.path with
  | .ok target, .ok content =>
    some (.CreateFile content (strings.TrimSuffix target ".tpl")
      (if isBootstrapPath target then (if opts.Branch = "" then "main" else opts.Branch)
       else "init-with-devstream"))
  | _, _ => none

/-- Recognises the `CreateFile` calls of a trace. -/
def Call.isCreateFile : Call → Bool
  | .CreateFile _ _ _ => true
  | _ => false

/-- Recognises the calls a tree walk can make: `CreateFile` and `NewBranch`. -/
def Call.isWalkCall : Call → Bool
  | .CreateFile _ _ _ => true
  | .NewBranch _ _ => true
  | _ => false

/-- Recognises the calls of the merge step. -/
def Call.isMergeCall : Call → Bool
  | .NewPullRequest _ _ => true
  | .MergePullRequest _ _ => true
  | _ => false

/-- The client that answers `DeleteRepo` as `del` says and every other call as
`ghClient` does. -/
def Client.withDeleteRepoAnswer (ghClient : Client) (del : List Call → Option String) :
    Client :=
  { respond := fun trace c =>
      match c with
      | .DeleteRepo => del trace
      | _ => ghClient.respond trace c
    prNumber := ghClient.prNumber }

/-! ## Concrete runs -/

/-- A client every call of which succeeds; pull requests get number 1. -/
def okClient : Client := { respond := fun _ _ => none, prNumber := fun _ => 1 }

/-- A client on which exactly the calls accepted by `bad` fail. -/
def failingClient (bad : Call → Bool) : Client :=
  { respond := fun _ c => if bad c then some "remote call failed" else none
    prNumber := fun _ => 1 }

/-- The root the examples walk: two segments, as `genPathForGithub` expects. -/
def exampleRoot : String := DefaultWorkPath ++ "/" ++ DefaultTemplateRepo

/-- A world over a list of visited entries, where every file reads as its own
path and a template renders to its text followed by the application name. -/
def worldOf (entries : List WalkEntry) : World :=
  { walk := fun _ => entries
    readFile := fun path => .ok ("content of " ++ path)
    templateParse := fun _ => none
    templateExecute := fun text config => .ok (text ++ " for " ++ config.AppName)
    isLetterOrDigit := Char.isAlphanum }

def dirEntry (path : String) : WalkEntry := { path := path, isDir := true, err := none }
def fileEntry (path : String) : WalkEntry := { path := path, isDir := false, err := none }

/-- Scenario A: the tree `.gitignore.tpl`, `README.md`,
`app/_app_name_/main.go.tpl`, in the visit order of `filepath.Walk`. -/
def scenarioA : World :=
  worldOf
    [ dirEntry exampleRoot,
      fileEntry (exampleRoot ++ "/.gitignore.tpl"),
      fileEntry (exampleRoot ++ "/README.md"),
      dirEntry (exampleRoot ++ "/app"),
      dirEntry (exampleRoot ++ "/app/_app_name_"),
      fileEntry (exampleRoot ++ "/app/_app_name_/main.go.tpl") ]

/-- A tree with a workflow file: `.github` sorts before `.gitignore.tpl`, so
`filepath.Walk` visits the workflow file first. -/
def workflowTree : World :=
  worldOf
    [ dirEntry exampleRoot,
      dirEntry (exampleRoot ++ "/.github"),
      dirEntry (exampleRoot ++ "/.github/workflows"),
      fileEntry (exampleRoot ++ "/.github/workflows/ci.yml"),
      fileEntry (exampleRoot ++ "/.gitignore.tpl") ]

def optsA : Options :=
  { Owner := "alice", Org := "", Repo := "svc-a", Branch := "", ImageRepo := "" }

def optsBoth : Options :=
  { Owner := "alice", Org := "acme", Repo := "svc-a", Branch := "", ImageRepo := "acme/svc-a" }

/-- The calls the callback makes on an entry when it returns `nil`: none for
an entry that is skipped, the commit of a file otherwise, followed by the
creation of the transit branch when the file is the bootstrap file. -/
def plannedCalls (w : World) (opts : Options) (entry : WalkEntry) : List Call :=
  if entry.isCandidate then
    match translatePath w.isLetterOrDigit entry.path opts.Repo,
      fileContent w opts entry.path with
    | .ok target, .ok content =>
      if isBootstrapPath target then
        [.CreateFile content (strings.TrimSuffix target ".tpl") (getMainBranchName opts),
          .NewBranch (getMainBranchName opts) TransitBranch]
      else
        [.CreateFile content (strings.TrimSuffix target ".tpl") TransitBranch]
    | _, _ => []
  else []

/-- The planned calls of a list of entries, in order. -/
def plannedTrace (w : World) (opts : Options) : List WalkEntry → List Call
  | [] => []
  | entry :: rest => plannedCalls w opts entry ++ plannedTrace w opts rest

/-- Byte-wise order of two names, as `sort.Strings` orders the names of a
directory (on UTF-8 text the order of the code points). -/
def nameLt : List Char → List Char → Bool
  | _, [] => false
  | [], _ :: _ => true
  | a :: as, b :: bs => decide (a.toNat < b.toNat) || (a == b && nameLt as bs)

/-- Order of two paths in a walk: segment by segment, a directory before what
it contains. -/
def segmentsLt : List (List Char) → List (List Char) → Bool
  | _, [] => false
  | [], _ :: _ => true
  | a :: as, b :: bs => nameLt a b || (a == b && segmentsLt as bs)

/-- The segments of a path. -/
def pathSegments (path : String) : List (List Char) :=
  strings.genSplit ['/'] path.data.length path.data

/-- Whether a list of entries is in the visit order of `filepath.Walk`. -/
def inWalkOrder : List WalkEntry → Bool
  | a :: b :: rest =>
    segmentsLt (pathSegments a.path) (pathSegments b.path) && inWalkOrder (b :: rest)
  | _ => true

/-- The commit of `.gitignore.tpl` in the example trees, for `optsA`. -/
def commitGitignore : Call :=
  .CreateFile
    "content of .github-repo-scaffolding-golang/dtm-scaffolding-golang/.gitignore.tpl for svc-a"
    ".gitignore" "main"

/-- The commit of `app/_app_name_/main.go.tpl` in Scenario A, for `optsA`. -/
def commitMainGo : Call :=
  .CreateFile
    "content of .github-repo-scaffolding-golang/dtm-scaffolding-golang/app/_app_name_/main.go.tpl for svc-a"
    "app/svc-a/main.go" "init-with-devstream"

/-- The commit of `.github/workflows/ci.yml` in the workflow tree. -/
def commitWorkflow : Call :=
  .CreateFile
    "content of .github-repo-scaffolding-golang/dtm-scaffolding-golang/.github/workflows/ci.yml"
    ".github/workflows/ci.yml" "init-with-devstream"

/-! ## Path translation: `genPathForGithub` -/

namespace strings

theorem indexChars_slash_none (s : List Char) :
    indexChars ['/'] s = none ↔ '/' ∉ s := by
  induction s with
  | nil => simp [indexChars]
  | cons c cs ih =>
    by_cases h : '/' = c
    · subst h; simp [indexChars]
    · simp [indexChars, h, ih]

theorem indexChars_slash_some (s : List Char) (m : Nat) (h : indexChars ['/'] s = some m) :
    s = s.take m ++ '/' :: s.drop (m + 1) ∧ '/' ∉ s.take m := by
  induction s generalizing m with
  | nil => simp [indexChars] at h
  | cons c cs ih =>
    by_cases hc : '/' = c
    · subst hc
      simp [indexChars] at h
      subst h
      simp
    · simp [indexChars, hc] at h
      obtain ⟨a, ha, rfl⟩ := h
      obtain ⟨h1, h2⟩ := ih a ha
      refine ⟨?_, ?_⟩
      · simp only [List.take_succ_cons, List.drop_succ_cons, List.cons_append]
        rw [← h1]
      · simp [List.take_succ_cons, h2, hc]


theorem genSplit_slash_two (s : List Char) :
    (s.count '/' < 2 ∧ (genSplit ['/'] 2 s).length ≠ 3) ∨
    (∃ a b r, genSplit ['/'] 2 s = [a, b, r] ∧ s = a ++ '/' :: (b ++ '/' :: r)
      ∧ '/' ∉ a ∧ '/' ∉ b) := by
  cases h1 : indexChars ['/'] s with
  | none =>
    left
    have hn := (indexChars_slash_none s).1 h1
    simp [genSplit, h1, List.count_eq_zero_of_not_mem hn]
  | some m =>
    obtain ⟨e1, n1⟩ := indexChars_slash_some s m h1
    cases h2 : indexChars ['/'] (s.drop (m + 1)) with
    | none =>
      left
      have hn := (indexChars_slash_none _).1 h2
      refine ⟨?_, by simp [genSplit, h1, h2]⟩
      rw [e1]
      simp [List.count_append, List.count_cons, List.count_eq_zero_of_not_mem hn,
        List.count_eq_zero_of_not_mem n1]
    | some k =>
      right
      obtain ⟨e2, n2⟩ := indexChars_slash_some _ k h2
      refine ⟨s.take m, (s.drop (m + 1)).take k, (s.drop (m + 1)).drop (k + 1), ?_, ?_, n1, n2⟩
      · simp [genSplit, h1, h2]
      · rw [← e2]; exact e1

end strings

theorem genPathForGithub_of_split (p a b r : String)
    (h : strings.SplitN p "/" 3 = [a, b, r]) : genPathForGithub p = .ok r := by
  unfold genPathForGithub
  simp [h]

theorem genPathForGithub_of_short (p : String)
    (h : (strings.SplitN p "/" 3).length ≠ 3) :
    genPathForGithub p = .error ("unknown format: " ++ p) := by
  unfold genPathForGithub
  simp [h]

theorem contains_slash_false (s : String) :
    strings.Contains s "/" = false ↔ '/' ∉ s.data := by
  unfold strings.Contains strings.Index
  rw [← strings.indexChars_slash_none]
  show (strings.indexChars ['/'] s.data).isSome = false ↔ _
  cases strings.indexChars ['/'] s.data <;> simp

/-- C6: `genPathForGithub p` fails exactly when `p` has fewer than two `/`
characters (fewer than three segments); otherwise it returns the remainder `r`
after the first two segments: `p = s1 + "/" + s2 + "/" + r` with no `/` in `s1`
and `s2`. -/
theorem genPathForGithub_spec (p : String) :
    ((∃ e, genPathForGithub p = .error e) ↔ p.data.count '/' < 2) ∧
    (2 ≤ p.data.count '/' → ∃ s1 s2 r, genPathForGithub p = .ok r ∧
      p = s1 ++ "/" ++ s2 ++ "/" ++ r ∧
      strings.Contains s1 "/" = false ∧ strings.Contains s2 "/" = false) := by
  have hsplit : strings.SplitN p "/" 3 = (strings.genSplit ['/'] 2 p.data).map String.mk := rfl
  rcases strings.genSplit_slash_two p.data with ⟨hc, hl⟩ | ⟨a, b, r, hg, hp, na, nb⟩
  · have herr := genPathForGithub_of_short p (by rw [hsplit]; simpa using hl)
    refine ⟨⟨fun _ => hc, fun _ => ⟨_, herr⟩⟩, fun h => (by omega)⟩
  · have hok := genPathForGithub_of_split p ⟨a⟩ ⟨b⟩ ⟨r⟩ (by rw [hsplit, hg]; rfl)
    have hcount : 2 ≤ p.data.count '/' := by
      rw [hp]; simp [List.count_append, List.count_cons]; omega
    refine ⟨⟨fun ⟨e, he⟩ => (by rw [hok] at he; cases he), fun h => (by omega)⟩, fun _ => ?_⟩
    refine ⟨⟨a⟩, ⟨b⟩, ⟨r⟩, hok, ?_, (contains_slash_false _).2 na, (contains_slash_false _).2 nb⟩
    apply String.ext
    simp [String.data_append, hp]

/-- C6 at `work/repo/cmd/main.go`, a path with three `/`. -/
theorem genPathForGithub_spec_witness :
    2 ≤ ("work/repo/cmd/main.go" : String).data.count '/' ∧
    ∃ s1 s2 r, genPathForGithub "work/repo/cmd/main.go" = .ok r ∧
      "work/repo/cmd/main.go" = s1 ++ "/" ++ s2 ++ "/" ++ r ∧
      strings.Contains s1 "/" = false ∧ strings.Contains s2 "/" = false :=
  ⟨by decide, (genPathForGithub_spec "work/repo/cmd/main.go").2 (by decide)⟩

/-! ## State and render context -/

/-- C9: the `repoURL` output of `buildState` is
`"https://github.com/" + X + "/" + opts.Repo + ".git"` where `X` is `opts.Owner`
when it is not empty and `opts.Org` otherwise. -/
theorem buildState_repoURL (opts : Options) :
    (buildState opts).outputs.repoURL =
      "https://github.com/" ++ (if opts.Owner ≠ "" then opts.Owner else opts.Org)
        ++ "/" ++ opts.Repo ++ ".git" := by
  unfold buildState
  by_cases h : opts.Owner = "" <;> simp [h]

/-- C10: the context `Render` builds has `Repo.Owner = opts.Org` when `opts.Org`
is not empty and `opts.Owner` otherwise, `AppName = Repo.Name = opts.Repo` and
`ImageRepo = opts.ImageRepo`; and it is the context the template of a readable,
well-formed file is executed on. -/
theorem Render_context (opts : Options) :
    renderConfig opts =
      { AppName := opts.Repo
        ImageRepo := opts.ImageRepo
        Repo := { Name := opts.Repo
                  Owner := if opts.Org ≠ "" then opts.Org else opts.Owner } } ∧
    ∀ (w : World) (filePath text : String),
      w.readFile filePath = .ok text → w.templateParse text = none →
      Render w filePath opts =
        w.templateExecute text
          { AppName := opts.Repo
            ImageRepo := opts.ImageRepo
            Repo := { Name := opts.Repo
                      Owner := if opts.Org ≠ "" then opts.Org else opts.Owner } } := by
  have hc : renderConfig opts =
      { AppName := opts.Repo
        ImageRepo := opts.ImageRepo
        Repo := { Name := opts.Repo
                  Owner := if opts.Org ≠ "" then opts.Org else opts.Owner } } := rfl
  refine ⟨hc, ?_⟩
  intro w filePath text hr hp
  unfold Render
  rw [hc]
  simp only [hr, hp]
  cases w.templateExecute text _ <;> rfl

/-- C10 with both logins set: the rendered text is the one for owner `acme`. -/
theorem Render_context_witness :
    Render scenarioA "t.tpl" optsBoth =
      scenarioA.templateExecute "content of t.tpl"
        { AppName := "svc-a", ImageRepo := "acme/svc-a"
          Repo := { Name := "svc-a", Owner := "acme" } } :=
  (Render_context optsBoth).2 scenarioA "t.tpl" "content of t.tpl" rfl rfl

/-! ## Path translation: `replaceAppNameInPathStr` -/

theorem indexChars_cons_none (pat : List Char) (c : Char) (cs : List Char)
    (h : strings.indexChars pat (c :: cs) = none) :
    pat.isPrefixOf (c :: cs) = false ∧ strings.indexChars pat cs = none := by
  unfold strings.indexChars at h
  by_cases hp : pat.isPrefixOf (c :: cs) = true
  · simp [hp] at h
  · simp only [hp, Bool.false_eq_true, if_false, Option.map_eq_none'] at h
    exact ⟨Bool.eq_false_iff.mpr hp, h⟩

theorem indexChars_none_of_append (pat x r : List Char)
    (h : strings.indexChars pat (x ++ r) = none) : strings.indexChars pat r = none := by
  induction x with
  | nil => simpa using h
  | cons c cs ih => exact ih (indexChars_cons_none pat c (cs ++ r) h).2

theorem replaceAllChars_of_absent (pat repl s : List Char)
    (h : strings.indexChars pat s = none) : regexp.replaceAllChars pat repl 0 s = s := by
  induction s with
  | nil => rfl
  | cons c cs ih =>
    obtain ⟨h1, h2⟩ := indexChars_cons_none pat c cs h
    simp [regexp.replaceAllChars, h1, ih h2]

theorem compile_app_name :
    regexp.Compile "_app_name_" = .ok ⟨"_app_name_".data⟩ := by decide

theorem replaceAppNameInPathStr_eq (uni : Char → Bool) (filePath appName : String) :
    replaceAppNameInPathStr uni filePath appName =
      .ok ⟨regexp.replaceAllChars "_app_name_".data
        (regexp.expand uni appName.data "_app_name_".data) 0 filePath.data⟩ := by
  unfold replaceAppNameInPathStr
  simp only [compile_app_name]
  rfl

theorem replaceAppNameInPathStr_of_absent (uni : Char → Bool) (t a : String)
    (h : strings.Contains t "_app_name_" = false) :
    replaceAppNameInPathStr uni t a = .ok t := by
  rw [replaceAppNameInPathStr_eq]
  have h' : strings.indexChars "_app_name_".data t.data = none := by
    unfold strings.Contains strings.Index at h
    cases hi : strings.indexChars "_app_name_".data t.data with
    | none => rfl
    | some m => rw [hi] at h; simp at h
  rw [replaceAllChars_of_absent _ _ _ h']

theorem cutDollar_of_absent (s : List Char) (h : '$' ∉ s) : regexp.cutDollar s = none := by
  induction s with
  | nil => rfl
  | cons c cs ih =>
    simp only [List.mem_cons, not_or] at h
    have hc : ¬ c = '$' := fun e => h.1 e.symm
    simp [regexp.cutDollar, hc, ih h.2]

/-- Where the project name has no `$`, the replacement text is the project
name itself. -/
theorem replaceAppNameInPathStr_of_no_dollar (uni : Char → Bool) (filePath appName : String)
    (h : '$' ∉ appName.data) :
    replaceAppNameInPathStr uni filePath appName =
      .ok ⟨regexp.replaceAllChars "_app_name_".data appName.data 0 filePath.data⟩ := by
  rw [replaceAppNameInPathStr_eq]
  have : regexp.expand uni appName.data "_app_name_".data = appName.data := by
    unfold regexp.expand regexp.expandLoop
    simp [cutDollar_of_absent _ h]
  rw [this]

/-- C7, at path `cmd/_app_name_/main.go` and project name `a$$b`: the token is
replaced by `a$b`, not by the project name as given, whatever the table of
letters and digits.  With the ASCII letters, project name `pay$app` puts `pay`
in the path. -/
theorem replaceAppNameInPathStr_dollar :
    (∀ uni : Char → Bool,
      replaceAppNameInPathStr uni "cmd/_app_name_/main.go" "a$$b" = .ok "cmd/a$b/main.go") ∧
    replaceAppNameInPathStr Char.isAlphanum "cmd/_app_name_/main.go" "pay$app"
      = .ok "cmd/pay/main.go" := by
  refine ⟨fun uni => ?_, by decide⟩
  rw [replaceAppNameInPathStr_eq]
  have : regexp.expand uni "a$$b".data "_app_name_".data = "a$b".data := by
    simp [regexp.expand, regexp.expandLoop, regexp.cutDollar]
  rw [this]
  decide

/-- C8 fails: the translation of
`.github-repo-scaffolding-golang/dtm-scaffolding-golang/cmd/_app_name_/main.go.tpl`
for `svc-a` is `cmd/svc-a/main.go.tpl`, which has no placeholder, and
translating it again gives `main.go.tpl`. -/
theorem translatePath_not_idempotent :
    translatePath Char.isAlphanum
      ".github-repo-scaffolding-golang/dtm-scaffolding-golang/cmd/_app_name_/main.go.tpl"
      "svc-a" = .ok "cmd/svc-a/main.go.tpl" ∧
    strings.Contains "cmd/svc-a/main.go.tpl" "_app_name_" = false ∧
    translatePath Char.isAlphanum "cmd/svc-a/main.go.tpl" "svc-a" = .ok "main.go.tpl" ∧
    translatePath Char.isAlphanum "cmd/svc-a/main.go.tpl" "svc-a"
      ≠ .ok "cmd/svc-a/main.go.tpl" := by
  decide

/-- C8 as amended: on a translated path `t` without the placeholder, the
substitution step `replaceAppNameInPathStr` returns `t` unchanged, while the
whole translation of `t` fails or returns a path shorter than `t`, the part of
`t` after its first two segments. -/
theorem translatePath_again (uni : Char → Bool) (p a t : String)
    (_ht : translatePath uni p a = .ok t)
    (hno : strings.Contains t "_app_name_" = false) :
    replaceAppNameInPathStr uni t a = .ok t ∧
    ((∃ e, translatePath uni t a = .error e) ∨
      ∃ s1 s2 r, translatePath uni t a = .ok r ∧ t = s1 ++ "/" ++ s2 ++ "/" ++ r ∧
        r.length < t.length) := by
  refine ⟨replaceAppNameInPathStr_of_absent uni t a hno, ?_⟩
  by_cases hc : 2 ≤ t.data.count '/'
  · right
    obtain ⟨s1, s2, r, hr, ht', -, -⟩ := (genPathForGithub_spec t).2 hc
    refine ⟨s1, s2, r, ?_, ht', ?_⟩
    · have hr' : strings.Contains r "_app_name_" = false := by
        have h' : strings.indexChars "_app_name_".data t.data = none := by
          unfold strings.Contains strings.Index at hno
          cases hi : strings.indexChars "_app_name_".data t.data with
          | none => rfl
          | some m => rw [hi] at hno; simp at hno
        have ht2 : t.data = (s1 ++ "/" ++ s2 ++ "/").data ++ r.data := by
          conv_lhs => rw [ht']
          simp [String.data_append]
        rw [ht2] at h'
        have := indexChars_none_of_append _ _ _ h'
        unfold strings.Contains strings.Index
        rw [this]; rfl
      unfold translatePath
      rw [hr]
      exact replaceAppNameInPathStr_of_absent uni r a hr'
    · conv_rhs => rw [ht']
      simp only [String.length_append]
      have h1 : ("/" : String).length = 1 := rfl
      omega
  · left
    obtain ⟨e, he⟩ := (genPathForGithub_spec t).1.2 (by omega)
    exact ⟨e, by unfold translatePath; rw [he]⟩

/-- C8 as amended, at the translation of
`work/repo/cmd/_app_name_/main.go.tpl` for `svc-a`. -/
theorem translatePath_again_witness :
    replaceAppNameInPathStr Char.isAlphanum "cmd/svc-a/main.go.tpl" "svc-a"
      = .ok "cmd/svc-a/main.go.tpl" ∧
    ((∃ e, translatePath Char.isAlphanum "cmd/svc-a/main.go.tpl" "svc-a" = .error e) ∨
      ∃ s1 s2 r, translatePath Char.isAlphanum "cmd/svc-a/main.go.tpl" "svc-a" = .ok r ∧
        "cmd/svc-a/main.go.tpl" = s1 ++ "/" ++ s2 ++ "/" ++ r ∧
        r.length < ("cmd/svc-a/main.go.tpl" : String).length) :=
  translatePath_again Char.isAlphanum "work/repo/cmd/_app_name_/main.go.tpl" "svc-a"
    "cmd/svc-a/main.go.tpl" (by decide) (by decide)

/-! ## The tree walk -/

theorem walkFn_spec (w : World) (opts : Options) (ghClient : Client)
    (entry : WalkEntry) (trace : List Call) :
    ∃ added,
      (walkFn w opts ghClient opts.Repo (getMainBranchName opts) entry trace).2
        = trace ++ added ∧
      (∀ x ∈ added, x.isWalkCall = true) ∧
      ((added.filter Call.isCreateFile = [] ∧
          ((walkFn w opts ghClient opts.Repo (getMainBranchName opts) entry trace).1 = none →
            entry.isCandidate = false)) ∨
        (entry.isCandidate = true ∧
          ∃ c, expectedCommit w opts entry = some c ∧ added.filter Call.isCreateFile = [c])) := by
  cases h1 : entry.err with
  | some err =>
    exact ⟨[], by simp [walkFn, h1], by simp, Or.inl ⟨rfl, by simp [WalkEntry.isCandidate, h1]⟩⟩
  | none =>
  by_cases h2 : entry.isDir = true
  · exact ⟨[], by simp [walkFn, h1, h2], by simp,
      Or.inl ⟨rfl, by simp [WalkEntry.isCandidate, h2]⟩⟩
  by_cases h3 : strings.Contains entry.path ".git/" = true
  · exact ⟨[], by simp [walkFn, h1, h2, h3], by simp,
      Or.inl ⟨rfl, by simp [WalkEntry.isCandidate, h3]⟩⟩
  by_cases h4 : strings.HasSuffix entry.path "README.md" = true
  · exact ⟨[], by simp [walkFn, h1, h2, h3, h4], by simp,
      Or.inl ⟨rfl, by simp [WalkEntry.isCandidate, h4]⟩⟩
  have hcand : entry.isCandidate = true := by
    simp [WalkEntry.isCandidate, h1, h2, h3, h4]
  cases h5 : genPathForGithub entry.path with
  | error err =>
    exact ⟨[], by simp [walkFn, h1, h2, h3, h4, h5], by simp,
      Or.inl ⟨rfl, by simp [walkFn, h1, h2, h3, h4, h5]⟩⟩
  | ok pathForGithub =>
  cases h6 : fileContent w opts entry.path with
  | error err =>
    have h6' := h6
    unfold fileContent at h6'
    exact ⟨[], by simp [walkFn, h1, h2, h3, h4, h5, h6'], by simp,
      Or.inl ⟨rfl, by simp [walkFn, h1, h2, h3, h4, h5, h6']⟩⟩
  | ok content =>
  have h6' := h6
  unfold fileContent at h6'
  cases h7 : replaceAppNameInPathStr w.isLetterOrDigit pathForGithub opts.Repo with
  | error err =>
    exact ⟨[], by simp [walkFn, h1, h2, h3, h4, h5, h6', h7], by simp,
      Or.inl ⟨rfl, by simp [walkFn, h1, h2, h3, h4, h5, h6', h7]⟩⟩
  | ok newPathForGithub =>
  have hexp : expectedCommit w opts entry =
      some (.CreateFile content (strings.TrimSuffix newPathForGithub ".tpl")
        (if strings.Contains newPathForGithub "gitignore" then getMainBranchName opts
         else TransitBranch)) := by
    simp [expectedCommit, translatePath, h5, h6, h7, isBootstrapPath, getMainBranchName,
      DefaultMainBranch, TransitBranch]
  by_cases h8 : strings.Contains newPathForGithub "gitignore" = true
  · simp only [h8, if_true] at hexp
    cases h9 : ghClient.respond trace
        (.CreateFile content (strings.TrimSuffix newPathForGithub ".tpl")
          (getMainBranchName opts)) with
    | some err =>
      refine ⟨[.CreateFile content (strings.TrimSuffix newPathForGithub ".tpl")
          (getMainBranchName opts)], ?_, ?_, Or.inr ⟨hcand, _, hexp, ?_⟩⟩
      · simp [walkFn, h1, h2, h3, h4, h5, h6', h7, h8, Client.call, h9]
      · simp [Call.isWalkCall]
      · simp [Call.isCreateFile]
    | none =>
      refine ⟨[.CreateFile content (strings.TrimSuffix newPathForGithub ".tpl")
          (getMainBranchName opts), .NewBranch (getMainBranchName opts) TransitBranch],
        ?_, ?_, Or.inr ⟨hcand, _, hexp, ?_⟩⟩
      · simp [walkFn, h1, h2, h3, h4, h5, h6', h7, h8, Client.call, h9]
      · simp [Call.isWalkCall]
      · simp [Call.isCreateFile]
  · simp only [h8, Bool.false_eq_true, if_false] at hexp
    refine ⟨[.CreateFile content (strings.TrimSuffix newPathForGithub ".tpl") TransitBranch],
      ?_, ?_, Or.inr ⟨hcand, _, hexp, ?_⟩⟩
    · simp [walkFn, h1, h2, h3, h4, h5, h6', h7, h8, Client.call]
    · simp [Call.isWalkCall]
    · simp [Call.isCreateFile]

theorem walkEntries_spec (w : World) (opts : Options) (ghClient : Client)
    (entries : List WalkEntry) (trace : List Call) :
    ∃ added k,
      (walkEntries (walkFn w opts ghClient opts.Repo (getMainBranchName opts)) entries trace).2
        = trace ++ added ∧
      (∀ x ∈ added, x.isWalkCall = true) ∧
      (added.filter Call.isCreateFile).map some
        = ((entries.take k).filter WalkEntry.isCandidate).map (expectedCommit w opts) ∧
      ((walkEntries (walkFn w opts ghClient opts.Repo (getMainBranchName opts)) entries trace).1
          = none → k = entries.length) := by
  induction entries generalizing trace with
  | nil => exact ⟨[], 0, by simp [walkEntries], by simp, by simp, fun _ => rfl⟩
  | cons entry rest ih =>
    obtain ⟨a1, ht1, hw1, hc1⟩ := walkFn_spec w opts ghClient entry trace
    cases hr : walkFn w opts ghClient opts.Repo (getMainBranchName opts) entry trace with
    | mk r1 t1 =>
    rw [hr] at ht1 hc1
    simp only at ht1 hc1
    subst ht1
    cases r1 with
    | some err =>
      have hres : walkEntries (walkFn w opts ghClient opts.Repo (getMainBranchName opts))
          (entry :: rest) trace = (some err, trace ++ a1) := by
        simp [walkEntries, hr]
      rw [hres]
      rcases hc1 with ⟨hf, -⟩ | ⟨hcand, c, hexp, hf⟩
      · exact ⟨a1, 0, rfl, hw1, by simp [hf], by simp⟩
      · exact ⟨a1, 1, rfl, hw1, by simp [hf, hcand, hexp], by simp⟩
    | none =>
      obtain ⟨a2, k, ht2, hw2, hm2, hk2⟩ := ih (trace ++ a1)
      have hres : walkEntries (walkFn w opts ghClient opts.Repo (getMainBranchName opts))
          (entry :: rest) trace
          = walkEntries (walkFn w opts ghClient opts.Repo (getMainBranchName opts))
              rest (trace ++ a1) := by
        simp [walkEntries, hr]
      rw [hres]
      refine ⟨a1 ++ a2, k + 1, by rw [ht2, List.append_assoc], ?_, ?_, ?_⟩
      · intro x hx
        rcases List.mem_append.1 hx with h | h
        · exact hw1 x h
        · exact hw2 x h
      · rcases hc1 with ⟨hf, hn⟩ | ⟨hcand, c, hexp, hf⟩
        · have hnc := hn rfl
          simp [List.filter_append, hf, hm2, List.filter_cons, hnc]
        · simp [List.filter_append, hf, hm2, List.filter_cons, hcand, hexp]
      · intro h
        simp [hk2 h]

/-- C5: the `CreateFile` calls of a walk are, in order, one call for each
candidate file among the first `k` entries visited, with the file's content,
its target path, and the resolved main branch when the translated path
contains `gitignore`, the transit branch otherwise; when the walk succeeds,
`k` is the number of entries, so that every candidate file of the tree has its
one call. -/
theorem WalkLocalRepoPath_commits (w : World) (repoPath : String) (opts : Options)
    (ghClient : Client) (trace : List Call) :
    ∃ added k,
      (WalkLocalRepoPath w repoPath opts ghClient trace).2 = trace ++ added ∧
      (added.filter Call.isCreateFile).map some
        = (((w.walk repoPath).take k).filter WalkEntry.isCandidate).map
            (expectedCommit w opts) ∧
      ((WalkLocalRepoPath w repoPath opts ghClient trace).1 = none →
        k = (w.walk repoPath).length) := by
  obtain ⟨added, k, h1, -, h3, h4⟩ :=
    walkEntries_spec w opts ghClient (w.walk repoPath) trace
  exact ⟨added, k, h1, h3, h4⟩

/-- C5 on Scenario A, where the walk succeeds: the `CreateFile` calls are the
commits of `.gitignore.tpl` and `main.go.tpl`, one each. -/
theorem WalkLocalRepoPath_commits_witness :
    ∃ added,
      (WalkLocalRepoPath scenarioA exampleRoot optsA okClient []).2 = added ∧
      (added.filter Call.isCreateFile).map some
        = ((scenarioA.walk exampleRoot).filter WalkEntry.isCandidate).map
            (expectedCommit scenarioA optsA) := by
  obtain ⟨added, k, h1, h2, h3⟩ :=
    WalkLocalRepoPath_commits scenarioA exampleRoot optsA okClient []
  have hk := h3 (by decide)
  subst hk
  rw [List.take_length] at h2
  exact ⟨added, by simpa using h1, h2⟩

/-! ## The provisioning run -/

theorem WalkLocalRepoPath_calls (w : World) (repoPath : String) (opts : Options)
    (ghClient : Client) (trace : List Call) :
    ∃ added, (WalkLocalRepoPath w repoPath opts ghClient trace).2 = trace ++ added ∧
      ∀ x ∈ added, x.isWalkCall = true := by
  obtain ⟨added, k, h1, h2, -, -⟩ :=
    walkEntries_spec w opts ghClient (w.walk repoPath) trace
  exact ⟨added, h1, h2⟩

theorem MergeCommits_calls (ghClient : Client) (mainBranch : String) (trace : List Call) :
    ∃ added, (MergeCommits ghClient mainBranch trace).2 = trace ++ added ∧
      ∀ x ∈ added, x.isMergeCall = true := by
  unfold MergeCommits
  cases h : ghClient.respond trace (.NewPullRequest TransitBranch mainBranch) with
  | some err =>
    exact ⟨[.NewPullRequest TransitBranch mainBranch], by simp [Client.call, h],
      by simp [Call.isMergeCall]⟩
  | none =>
    exact ⟨[.NewPullRequest TransitBranch mainBranch,
        .MergePullRequest (ghClient.prNumber trace) .MergeMethodSquash],
      by simp [Client.call, h], by simp [Call.isMergeCall]⟩

/-- The trace at the return of a failing later step holds no `DeleteRepo`
beyond those of the trace the step started from, and the body returns the
error of that step. -/
theorem initBody_of_failure (w : World) (repoPath : String) (opts : Options)
    (ghClient : Client) (e : String) (trace tfail : List Call)
    (hfail : WalkLocalRepoPath w repoPath opts ghClient trace = (some e, tfail) ∨
      ∃ t1, WalkLocalRepoPath w repoPath opts ghClient trace = (none, t1) ∧
        MergeCommits ghClient (getMainBranchName opts) t1 = (some e, tfail)) :
    initBody w repoPath opts ghClient trace = (some e, tfail) ∧
    tfail.count .DeleteRepo = trace.count .DeleteRepo := by
  rcases hfail with hw | ⟨t1, hw, hm⟩
  · obtain ⟨added, h1, h2⟩ := WalkLocalRepoPath_calls w repoPath opts ghClient trace
    rw [hw] at h1
    simp only at h1
    refine ⟨by simp [initBody, hw], ?_⟩
    have hz : added.count .DeleteRepo = 0 :=
      List.count_eq_zero_of_not_mem (fun hd => by simpa [Call.isWalkCall] using h2 _ hd)
    rw [h1, List.count_append, hz]
    omega
  · obtain ⟨a1, h1, h2⟩ := WalkLocalRepoPath_calls w repoPath opts ghClient trace
    obtain ⟨a2, h3, h4⟩ := MergeCommits_calls ghClient (getMainBranchName opts) t1
    rw [hw] at h1
    rw [hm] at h3
    simp only at h1 h3
    refine ⟨by simp [initBody, hw, hm], ?_⟩
    have hz1 : a1.count .DeleteRepo = 0 :=
      List.count_eq_zero_of_not_mem (fun hd => by simpa [Call.isWalkCall] using h2 _ hd)
    have hz2 : a2.count .DeleteRepo = 0 :=
      List.count_eq_zero_of_not_mem (fun hd => by simpa [Call.isMergeCall] using h4 _ hd)
    rw [h3, h1, List.count_append, List.count_append, hz1, hz2]
    omega

/-- The run after a successful `CreateRepo` and a failing later step. -/
theorem initRun_of_failure (w : World) (repoPath : String)
    (opts : Options) (ghClient : Client) (e : String) (tfail : List Call)
    (hcreate : ghClient.respond [] (.CreateRepo opts.Org) = none)
    (hfail :
      WalkLocalRepoPath w repoPath opts ghClient [.CreateRepo opts.Org] = (some e, tfail) ∨
      ∃ t1, WalkLocalRepoPath w repoPath opts ghClient [.CreateRepo opts.Org] = (none, t1) ∧
        MergeCommits ghClient (getMainBranchName opts) t1 = (some e, tfail)) :
    InitRepoLocalAndPushToRemote w repoPath opts ghClient = (some e, tfail ++ [.DeleteRepo]) ∧
    .DeleteRepo ∉ tfail ∧
    (InitRepoLocalAndPushToRemote w repoPath opts ghClient).2.count .DeleteRepo = 1 := by
  obtain ⟨hb, hc⟩ := initBody_of_failure w repoPath opts ghClient e _ tfail hfail
  have hrun : InitRepoLocalAndPushToRemote w repoPath opts ghClient
      = (some e, tfail ++ [.DeleteRepo]) := by
    unfold InitRepoLocalAndPushToRemote
    simp only [Client.call, hcreate, List.nil_append, hb, initDeferred]
    cases ghClient.respond tfail .DeleteRepo <;> rfl
  have hc0 : tfail.count .DeleteRepo = 0 := by
    rw [hc]; simp [List.count_cons]
  refine ⟨hrun, List.count_eq_zero.1 hc0, ?_⟩
  rw [hrun]
  simp [List.count_append, hc0]

/-- C1: when `CreateRepo` succeeds and a later step fails (the walk, or the
merge after a successful walk) with `tfail` the trace of client calls at the
return of the failing step, the trace of the run is `tfail` followed by
`DeleteRepo`: `DeleteRepo` is called exactly once, after the failing step, and
the run returns the error. -/
theorem InitRepoLocalAndPushToRemote_deletes_once (w : World) (repoPath : String)
    (opts : Options) (ghClient : Client) (e : String) (tfail : List Call)
    (hcreate : ghClient.respond [] (.CreateRepo opts.Org) = none)
    (hfail :
      WalkLocalRepoPath w repoPath opts ghClient [.CreateRepo opts.Org] = (some e, tfail) ∨
      ∃ t1, WalkLocalRepoPath w repoPath opts ghClient [.CreateRepo opts.Org] = (none, t1) ∧
        MergeCommits ghClient (getMainBranchName opts) t1 = (some e, tfail)) :
    InitRepoLocalAndPushToRemote w repoPath opts ghClient = (some e, tfail ++ [.DeleteRepo]) ∧
    .DeleteRepo ∉ tfail ∧
    (InitRepoLocalAndPushToRemote w repoPath opts ghClient).2.count .DeleteRepo = 1 :=
  initRun_of_failure w repoPath opts ghClient e tfail hcreate hfail

/-- C1 on Scenario A with a client whose merge step fails: the pull request is
refused after the two commits, and `DeleteRepo` follows. -/
theorem InitRepoLocalAndPushToRemote_deletes_once_witness :
    InitRepoLocalAndPushToRemote scenarioA exampleRoot optsA
        (failingClient Call.isMergeCall)
      = (some "remote call failed",
          [.CreateRepo "", commitGitignore, .NewBranch "main" "init-with-devstream",
            commitMainGo, .NewPullRequest "init-with-devstream" "main"] ++ [.DeleteRepo]) ∧
    .DeleteRepo ∉
      [.CreateRepo "", commitGitignore, .NewBranch "main" "init-with-devstream",
        commitMainGo, .NewPullRequest "init-with-devstream" "main"] ∧
    (InitRepoLocalAndPushToRemote scenarioA exampleRoot optsA
        (failingClient Call.isMergeCall)).2.count .DeleteRepo = 1 :=
  InitRepoLocalAndPushToRemote_deletes_once scenarioA exampleRoot optsA
    (failingClient Call.isMergeCall) "remote call failed" _ (by decide)
    (Or.inr ⟨[.CreateRepo "", commitGitignore, .NewBranch "main" "init-with-devstream",
      commitMainGo], by decide, by decide⟩)

/-- C2: when `CreateRepo` fails, the run returns that error and its trace is
the `CreateRepo` call alone. -/
theorem InitRepoLocalAndPushToRemote_create_fails (w : World) (repoPath : String)
    (opts : Options) (ghClient : Client) (e : String)
    (hcreate : ghClient.respond [] (.CreateRepo opts.Org) = some e) :
    InitRepoLocalAndPushToRemote w repoPath opts ghClient
      = (some e, [.CreateRepo opts.Org]) := by
  unfold InitRepoLocalAndPushToRemote
  simp [Client.call, hcreate]


/-- C2 on Scenario A with a client that refuses `CreateRepo`. -/
theorem InitRepoLocalAndPushToRemote_create_fails_witness :
    InitRepoLocalAndPushToRemote scenarioA exampleRoot optsA
        (failingClient (fun c => c == .CreateRepo ""))
      = (some "remote call failed", [.CreateRepo ""]) :=
  InitRepoLocalAndPushToRemote_create_fails scenarioA exampleRoot optsA
    (failingClient (fun c => c == .CreateRepo "")) "remote call failed" (by decide)

theorem WalkLocalRepoPath_withDeleteRepoAnswer (w : World) (repoPath : String)
    (opts : Options) (ghClient : Client) (del : List Call → Option String)
    (trace : List Call) :
    WalkLocalRepoPath w repoPath opts (ghClient.withDeleteRepoAnswer del) trace
      = WalkLocalRepoPath w repoPath opts ghClient trace := rfl

theorem MergeCommits_withDeleteRepoAnswer (ghClient : Client)
    (del : List Call → Option String) (mainBranch : String) (trace : List Call) :
    MergeCommits (ghClient.withDeleteRepoAnswer del) mainBranch trace
      = MergeCommits ghClient mainBranch trace := rfl

/-- C3: when `CreateRepo` succeeds and a later step fails with error `e`, the
run returns `e` whatever `DeleteRepo` answers: with the answer of `DeleteRepo`
replaced by any `del` (success or any error), the returned error is still `e`
and the trace is the same. -/
theorem InitRepoLocalAndPushToRemote_keeps_error (w : World) (repoPath : String)
    (opts : Options) (ghClient : Client) (e : String) (tfail : List Call)
    (del : List Call → Option String)
    (hcreate : ghClient.respond [] (.CreateRepo opts.Org) = none)
    (hfail :
      WalkLocalRepoPath w repoPath opts ghClient [.CreateRepo opts.Org] = (some e, tfail) ∨
      ∃ t1, WalkLocalRepoPath w repoPath opts ghClient [.CreateRepo opts.Org] = (none, t1) ∧
        MergeCommits ghClient (getMainBranchName opts) t1 = (some e, tfail)) :
    InitRepoLocalAndPushToRemote w repoPath opts (ghClient.withDeleteRepoAnswer del)
      = (some e, tfail ++ [.DeleteRepo]) := by
  refine (initRun_of_failure w repoPath opts (ghClient.withDeleteRepoAnswer del) e tfail
    hcreate ?_).1
  simpa only [WalkLocalRepoPath_withDeleteRepoAnswer, MergeCommits_withDeleteRepoAnswer]
    using hfail

/-- C3 on Scenario A with a client that refuses `NewBranch`, and whose
`DeleteRepo` fails too: the error returned is the one of `NewBranch`. -/
theorem InitRepoLocalAndPushToRemote_keeps_error_witness :
    InitRepoLocalAndPushToRemote scenarioA exampleRoot optsA
        ((failingClient (fun c => c == .NewBranch "main" "init-with-devstream")).withDeleteRepoAnswer
          (fun _ => some "delete failed"))
      = (some "remote call failed",
          [.CreateRepo "", commitGitignore, .NewBranch "main" "init-with-devstream"]
            ++ [.DeleteRepo]) :=
  InitRepoLocalAndPushToRemote_keeps_error scenarioA exampleRoot optsA
    (failingClient (fun c => c == .NewBranch "main" "init-with-devstream"))
    "remote call failed" _ (fun _ => some "delete failed") (by decide) (Or.inl (by decide))

/-- C4, evaluated: on Scenario A the walk commits `.gitignore` to `main`,
creates the transit branch and then commits `app/svc-a/main.go` to it, with no
commit for `README.md`; on the tree `.github/workflows/ci.yml`,
`.gitignore.tpl`, given in the visit order of `filepath.Walk`, with exactly one
bootstrap file and every call succeeding, the workflow file is committed to
the transit branch before the only `NewBranch` call. -/
theorem WalkLocalRepoPath_branch_order :
    WalkLocalRepoPath scenarioA exampleRoot optsA okClient []
      = (none, [commitGitignore, .NewBranch "main" "init-with-devstream", commitMainGo]) ∧
    inWalkOrder (scenarioA.walk exampleRoot) = true ∧
    inWalkOrder (workflowTree.walk exampleRoot) = true ∧
    WalkLocalRepoPath workflowTree exampleRoot optsA okClient []
      = (none, [commitWorkflow, commitGitignore, .NewBranch "main" "init-with-devstream"]) := by
  decide


/-! ## The calls of a successful walk -/

theorem walkFn_of_ok (w : World) (opts : Options) (ghClient : Client)
    (entry : WalkEntry) (trace : List Call)
    (hok : (walkFn w opts ghClient opts.Repo (getMainBranchName opts) entry trace).1 = none) :
    (walkFn w opts ghClient opts.Repo (getMainBranchName opts) entry trace).2
      = trace ++ plannedCalls w opts entry := by
  cases h1 : entry.err with
  | some err => simp [walkFn, h1] at hok
  | none =>
  by_cases h2 : entry.isDir = true
  · simp [walkFn, h1, h2, plannedCalls, WalkEntry.isCandidate]
  by_cases h3 : strings.Contains entry.path ".git/" = true
  · simp [walkFn, h1, h2, h3, plannedCalls, WalkEntry.isCandidate]
  by_cases h4 : strings.HasSuffix entry.path "README.md" = true
  · simp [walkFn, h1, h2, h3, h4, plannedCalls, WalkEntry.isCandidate]
  have hcand : entry.isCandidate = true := by
    simp [WalkEntry.isCandidate, h1, h2, h3, h4]
  cases h5 : genPathForGithub entry.path with
  | error err => simp [walkFn, h1, h2, h3, h4, h5] at hok
  | ok pathForGithub =>
  cases h6 : fileContent w opts entry.path with
  | error err =>
    have h6' := h6
    unfold fileContent at h6'
    simp [walkFn, h1, h2, h3, h4, h5, h6'] at hok
  | ok content =>
  have h6' := h6
  unfold fileContent at h6'
  cases h7 : replaceAppNameInPathStr w.isLetterOrDigit pathForGithub opts.Repo with
  | error err => simp [walkFn, h1, h2, h3, h4, h5, h6', h7] at hok
  | ok newPathForGithub =>
  by_cases h8 : strings.Contains newPathForGithub "gitignore" = true
  · cases h9 : ghClient.respond trace
        (.CreateFile content (strings.TrimSuffix newPathForGithub ".tpl")
          (getMainBranchName opts)) with
    | some err => simp [walkFn, h1, h2, h3, h4, h5, h6', h7, h8, Client.call, h9] at hok
    | none =>
      simp [walkFn, h1, h2, h3, h4, h5, h6', h7, h8, Client.call, h9, plannedCalls, hcand,
        translatePath, h6, isBootstrapPath]
  · simp [walkFn, h1, h2, h3, h4, h5, h6', h7, h8, Client.call, plannedCalls, hcand,
      translatePath, h6, isBootstrapPath]

/-- A walk that succeeds makes exactly the planned calls of the entries, in
the visit order: the transit branch is created right after the commit of the
bootstrap file, wherever the walk meets it, and the files met before it are
committed to the transit branch before that. -/
theorem WalkLocalRepoPath_of_ok (w : World) (repoPath : String) (opts : Options)
    (ghClient : Client) (trace : List Call)
    (hok : (WalkLocalRepoPath w repoPath opts ghClient trace).1 = none) :
    (WalkLocalRepoPath w repoPath opts ghClient trace).2
      = trace ++ plannedTrace w opts (w.walk repoPath) := by
  unfold WalkLocalRepoPath at hok ⊢
  simp only at hok ⊢
  generalize w.walk repoPath = entries at hok ⊢
  induction entries generalizing trace with
  | nil => simp [walkEntries, plannedTrace]
  | cons entry rest ih =>
    have h := walkFn_of_ok w opts ghClient entry trace
    cases hr : walkFn w opts ghClient opts.Repo (getMainBranchName opts) entry trace with
    | mk r1 t1 =>
    rw [hr] at h
    cases r1 with
    | some err => simp [walkEntries, hr] at hok
    | none =>
      have ht1 := h rfl
      simp only at ht1
      subst ht1
      simp only [walkEntries, hr] at hok ⊢
      rw [ih _ hok, plannedTrace, List.append_assoc]

end Devstream
